import Mathlib

set_option allowUnsafeReducibility true

attribute [local semireducible] Rat.add Rat.mul Rat.div Rat.sub Rat.neg Rat.inv

set_option maxRecDepth 4000

/-!
Verification of the cms-ai PPTX renderer against its specification.

The definitions below are a shallow embedding of the Python sources
`src/server/tools/renderer/render_pptx.py` and
`src/server/tools/renderer/design_templates.py`.
Python strings are modelled as `List Char`, Python floats as `ℚ`,
and the mutable theme catalog as an explicit association list that is
threaded through `get_design_theme`.
-/

/-- Shorthand: the character list of a string literal. -/

def toL (s : String) : List Char := s.toList

/-- Python whitespace class (ASCII part of `\s` and of `str.split()` / `str.strip()`). -/

def pySpace (c : Char) : Bool :=
  c = ' ' || c = '\t' || c = '\n' || c = '\x0d' || c = Char.ofNat 11 || c = Char.ofNat 12

/-- `needle in hay` for Python strings: substring containment. -/

def isSubstr (needle hay : List Char) : Bool :=
  hay.tails.any (fun t => needle.isPrefixOf t)

/-- `any(word in hay for word in needles)` over string literals. -/

def containsAnyS (hay : List Char) (needles : List String) : Bool :=
  needles.any (fun n => isSubstr n.toList hay)

/-- Python `str.lower()` (ASCII). -/

def lowerL (s : List Char) : List Char := s.map Char.toLower

/-- Python `str.upper()` (ASCII). -/

def upperL (s : List Char) : List Char := s.map Char.toUpper

/-- Helper for `len(s.split())`: counts maximal non-whitespace runs.
`inWord` records whether the previous character was part of a word. -/

def countWords : Bool → List Char → Nat
  | _, [] => 0
  | inWord, c :: cs =>
    if pySpace c then countWords false cs
    else (if inWord then 0 else 1) + countWords true cs

/-- Python `len(s.split())`. -/

def wordCount (s : List Char) : Nat := countWords false s

/-! ## SmartLayoutDetector.detect_layout (render_pptx.py, lines 443-491)

Each condition of the if-chain is transcribed as its own definition so the
theorems can refer to the individual rules. -/

/-- `len(content_items) == 1 and len(content_items[0].split()) < 30`. -/

def quote_cond (items : List (List Char)) : Bool :=
  match items with
  | [it] => wordCount it < 30
  | _ => false

def title_timeline (tl : List Char) : Bool :=
  containsAnyS tl ["timeline", "phases", "roadmap", "schedule"]

def content_timeline (ct : List Char) : Bool :=
  containsAnyS ct ["q1", "q2", "q3", "q4", "phase"]

def title_hierarchy (tl : List Char) : Bool :=
  containsAnyS tl ["architecture", "structure", "hierarchy", "organization"]

def title_comparison (tl : List Char) : Bool :=
  containsAnyS tl ["vs", "comparison", "versus"]

def content_comparison (ct : List Char) : Bool :=
  containsAnyS ct ["versus", "compared to", "current", "proposed"]

def title_metrics (tl : List Char) : Bool :=
  containsAnyS tl ["metrics", "kpi", "results", "performance"]

/-- `has_percentages = any('%' in item for item in content_items)`. -/

def has_pct (items : List (List Char)) : Bool :=
  items.any (fun it => it.contains '%')

/-- `any('|' in item or '\t' in item for item in content_items)`. -/

def table_cond (items : List (List Char)) : Bool :=
  items.any (fun it => it.contains '|' || it.contains '\t')

/-- `' '.join(content_items)`. -/

def joinSpace (items : List (List Char)) : List Char :=
  List.intercalate [' '] items

/-- `SmartLayoutDetector.detect_layout` (render_pptx.py 443-491). -/

def detect_layout (title : List Char) (items : List (List Char)) : String :=
  if items.isEmpty then "simple" else
  let tl := lowerL title
  let ct := lowerL (joinSpace items)
  if quote_cond items then "quote"
  else if title_timeline tl then "timeline"
  else if content_timeline ct then "timeline"
  else if title_hierarchy tl then "hierarchy"
  else if title_comparison tl then "comparison"
  else if content_comparison ct then "comparison"
  else if title_metrics tl then "metrics"
  else if has_pct items && 2 ≤ items.length then "metrics"
  else if table_cond items then "table"
  else if 4 ≤ items.length && items.length ≤ 6 then "grid"
  else if 6 < items.length then "multi_column"
  else "simple"

/-- Number of items containing a percent sign (used to state claim C2 as written:
"at least 2 of the items contain a percent sign"). -/

def count_pct_items (items : List (List Char)) : Nat :=
  (items.filter (fun it => it.contains '%')).length

/-! ## SmartDesignRules.calculate_optimal_font_sizes (render_pptx.py, lines 194-221) -/

/-- The three font sizes returned by the rules engine. -/

structure FontSizes where
  title : ℤ
  body : ℤ
  caption : ℤ
deriving DecidableEq, Repr

/-- Python `int()` on a numeric value: truncation toward zero.
(`Rat.floor`/`Rat.ceil` are the computable floor and ceiling; see
`ratFloor_eq`.) -/

def pyTrunc (x : ℚ) : ℤ := if 0 ≤ x then x.floor else x.ceil

/-- Round-to-nearest on ℚ, computably. -/

def roundQ (x : ℚ) : ℤ := (x + 1/2).floor

/-- `SmartDesignRules.calculate_optimal_font_sizes` (render_pptx.py 194-221).
`title_size = int(32 * (0.7 + visual_weight * 0.8))`,
`body_size = int(18 * (0.8 + visual_weight * 0.4))`, then the word-count and
content-type deltas, then the clamps.  Note `int(...)` truncates. -/

def calculate_optimal_font_sizes (visual_weight : ℚ) (word_count : ℕ)
    (content_type : String) : FontSizes :=
  let title1 : ℤ := pyTrunc (32 * (7/10 + visual_weight * (8/10)))
  let body1 : ℤ := pyTrunc (18 * (8/10 + visual_weight * (4/10)))
  let title2 := if word_count < 20 then title1 + 8
    else if 80 < word_count then title1 - 4 else title1
  let body2 := if word_count < 20 then body1 + 4
    else if 80 < word_count then body1 - 2 else body1
  let body3 := if content_type = "quote" then body2 + 6
    else if content_type = "data_driven" then body2 - 2 else body2
  { title := max 24 (min 48 title2),
    body := max 12 (min 24 body3),
    caption := max 10 (min 14 (body3 - 4)) }

/-- Reference definition written from the spec's words: identical pipeline but
with `round` (to nearest) in place of the code's `int` truncation, and with the
final clamps as stated. -/

def spec_font_sizes (visual_weight : ℚ) (word_count : ℕ)
    (content_type : String) : FontSizes :=
  let title1 : ℤ := roundQ (32 * (7/10 + visual_weight * (8/10)))
  let body1 : ℤ := roundQ (18 * (8/10 + visual_weight * (4/10)))
  let title2 := if word_count < 20 then title1 + 8
    else if 80 < word_count then title1 - 4 else title1
  let body2 := if word_count < 20 then body1 + 4
    else if 80 < word_count then body1 - 2 else body1
  let body3 := if content_type = "quote" then body2 + 6
    else if content_type = "data_driven" then body2 - 2 else body2
  { title := max 24 (min 48 title2),
    body := max 12 (min 24 body3),
    caption := max 10 (min 14 (body3 - 4)) }

/-- Reference pipeline from the spec with the rounding replaced by Python
truncation; used to state the amended C3. -/

def spec_font_sizes_trunc (visual_weight : ℚ) (word_count : ℕ)
    (content_type : String) : FontSizes :=
  let title1 : ℤ := pyTrunc (32 * (7/10 + visual_weight * (8/10)))
  let body1 : ℤ := pyTrunc (18 * (8/10 + visual_weight * (4/10)))
  let title2 := if word_count < 20 then title1 + 8
    else if 80 < word_count then title1 - 4 else title1
  let body2 := if word_count < 20 then body1 + 4
    else if 80 < word_count then body1 - 2 else body1
  let body3 := if content_type = "quote" then body2 + 6
    else if content_type = "data_driven" then body2 - 2 else body2
  { title := max 24 (min 48 title2),
    body := max 12 (min 24 body3),
    caption := max 10 (min 14 (body3 - 4)) }

/-! ## SmartDesignRules.ensure_contrast_ratio (render_pptx.py, lines 223-228) -/

/-- `SmartDesignRules.ensure_contrast_ratio` (render_pptx.py 223-228):
returns dark text when `background_color.upper().startswith('#F') or
background_color.upper() == '#FFFFFF'`, else white.  The `text_color` and
`min_ratio` parameters are accepted but never read. -/

def ensure_contrast_ratio (background_color : List Char) (text_color : List Char)
    (min_ratio : ℚ) : String :=
  if (toL "#F").isPrefixOf (upperL background_color)
      || upperL background_color = toL "#FFFFFF" then "#1F1F1F"
  else "#FFFFFF"

/-! ## DesignTemplateLibrary (design_templates.py)

A theme is identified by its key in `get_all_themes` (design_templates.py
430-444); the keys are listed in that dict's insertion order.  Each key is in
bijection with the theme object's `name`, so scoring "the theme whose name
matches" is modelled as scoring the key.  `colors` dicts are association
lists. -/

/-- Keys of `get_all_themes`, in the dict's insertion (iteration) order. -/

def themeOrder : List String :=
  ["corporate", "modern", "healthcare", "finance", "security", "education",
   "startup", "government", "consulting", "minimal"]

/-- Association-list lookup (Python `dict[k]` / `dict.get(k)`). -/

def dictGet {α : Type} (d : List (String × α)) (k : String) : Option α :=
  (d.find? (fun p => p.1 == k)).map (fun p => p.2)

/-- Association-list store (Python `dict[k] = v`: replace if present, else append). -/

def dictSet {α : Type} (d : List (String × α)) (k : String) (v : α) :
    List (String × α) :=
  if d.any (fun p => p.1 == k) then
    d.map (fun p => if p.1 == k then (k, v) else p)
  else d ++ [(k, v)]

/-- The `colors` dict of each catalog theme (design_templates.py 68-428). -/

def theme_colors : String → List (String × String)
  | "corporate" =>
    [("primary", "#2E75B6"), ("secondary", "#5A6C7D"), ("background", "#FFFFFF"),
     ("text", "#2C3E50"), ("accent", "#3498DB"), ("light", "#F8F9FA")]
  | "modern" =>
    [("primary", "#667EEA"), ("secondary", "#764BA2"), ("background", "#F7FAFC"),
     ("text", "#1A202C"), ("accent", "#4FD1C7"), ("light", "#EDF2F7")]
  | "healthcare" =>
    [("primary", "#48BB78"), ("secondary", "#68D391"), ("background", "#FFFFFF"),
     ("text", "#2D3748"), ("accent", "#4299E1"), ("light", "#F0FFF4")]
  | "finance" =>
    [("primary", "#1B5E20"), ("secondary", "#2E7D32"), ("background", "#FFFFFF"),
     ("text", "#1B5E20"), ("accent", "#FFB300"), ("light", "#F1F8E9")]
  | "security" =>
    [("primary", "#C53030"), ("secondary", "#2D3748"), ("background", "#1A202C"),
     ("text", "#F7FAFC"), ("accent", "#E53E3E"), ("light", "#4A5568")]
  | "education" =>
    [("primary", "#2B6CB0"), ("secondary", "#ED8936"), ("background", "#FFFBF0"),
     ("text", "#2D3748"), ("accent", "#38A169"), ("light", "#FFF5F5")]
  | "startup" =>
    [("primary", "#E53E3E"), ("secondary", "#F56565"), ("background", "#1A202C"),
     ("text", "#FFFFFF"), ("accent", "#48BB78"), ("light", "#2D3748")]
  | "government" =>
    [("primary", "#1A202C"), ("secondary", "#4A5568"), ("background", "#FFFFFF"),
     ("text", "#2D3748"), ("accent", "#C53030"), ("light", "#F7FAFC")]
  | "consulting" =>
    [("primary", "#553C9A"), ("secondary", "#805AD5"), ("background", "#FAFAFA"),
     ("text", "#1A202C"), ("accent", "#D69E2E"), ("light", "#F7FAFC")]
  | "minimal" =>
    [("primary", "#333333"), ("secondary", "#666666"), ("background", "#FFFFFF"),
     ("text", "#333333"), ("accent", "#E53E3E"), ("light", "#F5F5F5")]
  | _ => []

/-- The catalog state: one mutable `colors` dict per theme singleton.
This is the initial state, before any mutation. -/

def initial_catalog : List (String × List (String × String)) :=
  themeOrder.map (fun k => (k, theme_colors k))

/-- `DesignTemplateLibrary.get_theme_for_industry` (design_templates.py
587-610), returning the catalog key of the returned singleton. -/

def get_theme_for_industry (industry : List Char) : String :=
  let il := lowerL industry
  if containsAnyS il ["government", "public", "municipal"] then "government"
  else if containsAnyS il ["consulting", "advisory", "strategy"] then "consulting"
  else if containsAnyS il ["startup", "venture", "innovation"] then "startup"
  else if containsAnyS il ["health", "medical", "pharma", "biotech"] then "healthcare"
  else if containsAnyS il ["finance", "bank", "investment", "money"] then "finance"
  else if containsAnyS il ["security", "cyber", "protection", "risk"] then "security"
  else if containsAnyS il ["education", "training", "learning", "school"] then "education"
  else if containsAnyS il ["tech", "software", "digital"] then "modern"
  else "corporate"

/-- The `style_map` of `get_theme_by_style` (design_templates.py 464-514),
in the dict's insertion order, with themes as catalog keys. -/

def styleMap : List (String × String) :=
  [("modern", "modern"), ("innovative", "modern"), ("gradient", "modern"),
   ("minimal", "minimal"), ("minimalist", "minimal"), ("clean", "minimal"),
   ("simple", "minimal"),
   ("bold", "startup"), ("dynamic", "startup"), ("energetic", "startup"),
   ("elegant", "consulting"), ("premium", "consulting"),
   ("sophisticated", "consulting"),
   ("formal", "government"), ("official", "government"),
   ("institutional", "government"),
   ("friendly", "education"), ("warm", "education"),
   ("approachable", "education"),
   ("strong", "security"), ("dark", "security"), ("protective", "security"),
   ("trustworthy", "healthcare"), ("medical", "healthcare"),
   ("conservative", "finance"), ("traditional", "finance"),
   ("professional", "corporate"), ("corporate", "corporate")]

/-- `DesignTemplateLibrary.get_theme_by_style` (design_templates.py 464-514):
direct match first, then the first partial (substring either way) match in
insertion order, defaulting to corporate. -/

def get_theme_by_style (style : List Char) : String :=
  let sl := lowerL style
  match styleMap.find? (fun p => p.1.toList == sl) with
  | some p => p.2
  | none =>
    match styleMap.find? (fun p => isSubstr p.1.toList sl || isSubstr sl p.1.toList) with
    | some p => p.2
    | none => "corporate"

/-- Formality bump of `get_smart_theme` (weight 1.5). -/

def formalityBump (fl : List Char) (k : String) : ℚ :=
  if isSubstr (toL "formal") fl then
    (if ["corporate", "finance", "government"].contains k then 3/2 else 0)
  else if isSubstr (toL "casual") fl then
    (if ["startup", "education", "minimal"].contains k then 3/2 else 0)
  else
    (if ["modern", "healthcare", "consulting", "security"].contains k then 3/2 else 0)

/-- Audience bump of `get_smart_theme` (weight 1.0). -/

def audienceBump (al : List Char) (k : String) : ℚ :=
  if containsAnyS al ["executive", "board", "c-suite"] then
    (if k = "consulting" ∨ k = "corporate" then 1 else 0)
  else if containsAnyS al ["developer", "engineer", "technical"] then
    (if k = "modern" then 1 else 0)
  else if containsAnyS al ["student", "teacher", "learner"] then
    (if k = "education" then 1 else 0)
  else if containsAnyS al ["investor", "shareholder"] then
    (if k = "finance" then 1 else 0)
  else 0

/-- The total score a theme key receives in `get_smart_theme`
(design_templates.py 516-585): 3.0 industry + 2.0 style + 1.5 formality +
1.0 audience, each only when the corresponding signal string is non-empty. -/

def smartScore (industry style formality audience : List Char) (k : String) : ℚ :=
  (if industry ≠ [] ∧ get_theme_for_industry industry = k then 3 else 0)
  + (if style ≠ [] ∧ get_theme_by_style style = k then 2 else 0)
  + (if formality ≠ [] then formalityBump (lowerL formality) k else 0)
  + (if audience ≠ [] then audienceBump (lowerL audience) k else 0)

/-- `max(scores, key=scores.get)` over keys in iteration order: the first key
attaining the maximum (Python's `max` replaces the running best only on a
strictly greater value). -/

def bestKey (f : String → ℚ) : List String → String
  | [] => "corporate"
  | [k] => k
  | k :: k2 :: rest =>
    let b := bestKey f (k2 :: rest)
    if f k < f b then b else k

/-- `DesignTemplateLibrary.get_smart_theme` (design_templates.py 516-585),
returning the catalog key of the selected theme: highest score wins, first in
iteration order on ties, corporate when the maximum is 0. -/

def get_smart_theme (industry style formality audience : List Char) : String :=
  let f := smartScore industry style formality audience
  let b := bestKey f themeOrder
  if f b = 0 then "corporate" else b

/-! ## AIEnhancedPPTXRenderer.get_design_theme (render_pptx.py, lines 544-563)

Python's `get_theme_for_industry` / `get_smart_theme` return the catalog
*singletons* (class attributes of `DesignTemplateLibrary`), so
`theme.colors[key] = value` writes through the returned reference into the
catalog.  The embedding makes that aliasing explicit: the catalog is a state
value, a resolved theme is its catalog key, and the override loop produces
both the colors seen by the caller and the updated catalog entry. -/

/-- `AIEnhancedPPTXRenderer._detect_industry_from_content` (render_pptx.py
565-580). -/

def detect_industry_from_content (content : List Char) : String :=
  let cl := lowerL content
  if containsAnyS cl ["health", "medical", "patient", "hospital"] then "healthcare"
  else if containsAnyS cl ["finance", "bank", "investment", "money"] then "finance"
  else if containsAnyS cl ["tech", "software", "digital", "api"] then "technology"
  else if containsAnyS cl ["security", "cyber", "protection"] then "security"
  else if containsAnyS cl ["education", "learning", "training"] then "education"
  else "corporate"

/-- The guard of the override loop (render_pptx.py 560-562):
`isinstance(value, str) and value.startswith('#') and len(value) == 7`.
Values are typed as strings in the embedding, so the `isinstance` test is
always true. -/

def spec_color_accepted (v : String) : Bool :=
  (toL "#").isPrefixOf v.toList && v.toList.length == 7

/-- One iteration of the override loop: `theme.colors[key] = value` under the
guard. -/

def apply_spec_color (colors : List (String × String)) (kv : String × String) :
    List (String × String) :=
  if spec_color_accepted kv.2 then dictSet colors kv.1 kv.2 else colors

/-- `AIEnhancedPPTXRenderer.get_design_theme` (render_pptx.py 544-563) as a
state transformer on the catalog.  `ai_analysis` is `some ind` when an AI
analysis dict is present, with `ind = none` when it lacks an `industry` key
(then `.get('industry', 'corporate')` yields corporate).  Returns the colors
dict the caller sees and the catalog after the call. -/

def get_design_theme (catalog : List (String × List (String × String)))
    (ai_analysis : Option (Option (List Char))) (fallback_content : List Char)
    (spec_colors : List (String × String)) :
    List (String × String) × List (String × List (String × String)) :=
  let key :=
    match ai_analysis with
    | some (some ind) => get_theme_for_industry ind
    | some none => get_theme_for_industry (toL "corporate")
    | none =>
      get_smart_theme (toL (detect_industry_from_content fallback_content)) [] [] []
  let colors := (dictGet catalog key).getD []
  let colors2 := spec_colors.foldl apply_spec_color colors
  let catalog2 :=
    if spec_colors.isEmpty then catalog else dictSet catalog key colors2
  (colors2, catalog2)

/-! ## DynamicChartGenerator.detect_data_pattern (render_pptx.py, lines 329-378)

The three regexes are embedded as deterministic greedy scanners.  For each of
them greediness is exact: shrinking `\d+`, a fraction, a letter run or `\s*`
always leaves at its boundary a character that cannot match the next atom of
the pattern, so the regex engine's backtracking can never turn the greedy
failure into a success (the alternation in the timeline pattern is tried in
order, as the engine does). -/

/-- The optional fraction `(?:\.\d+)?`, taken greedily: returns the consumed
text and the remainder. -/

def fracPart (s1 : List Char) : List Char × List Char :=
  match s1 with
  | '.' :: t =>
    let fd := t.takeWhile Char.isDigit
    if fd.isEmpty then ([], '.' :: t) else ('.' :: fd, t.dropWhile Char.isDigit)
  | s1 => ([], s1)

/-- Greedy match of the percentage pattern `(\d+(?:\.\d+)?)\s*%` at the start
of `s`: returns the captured group and the remainder after the `%`. -/

def matchPctAt (s : List Char) : Option (List Char × List Char) :=
  let d := s.takeWhile Char.isDigit
  if d.isEmpty then none
  else
    let fs := fracPart (s.dropWhile Char.isDigit)
    match fs.2.dropWhile pySpace with
    | '%' :: rest => some (d ++ fs.1, rest)
    | _ => none

/-- `re.findall` of the percentage pattern: scan left to right, emitting each
match's group and continuing after it, else stepping one character.  The
`fuel` argument only makes the recursion structural; every step consumes at
least one character (`matchPctAt_rest_lt`), so `fuel = length` is enough —
see `pctFindAllF_fuel`. -/

def pctFindAllF : Nat → List Char → List (List Char)
  | 0, _ => []
  | _ + 1, [] => []
  | fuel + 1, c :: cs =>
    match matchPctAt (c :: cs) with
    | some (g, rest) => g :: pctFindAllF fuel rest
    | none => pctFindAllF fuel cs

def pctFindAll (s : List Char) : List (List Char) := pctFindAllF s.length s

/-- `re.sub(percentage_pattern, '', s)`: same scan, keeping unmatched
characters and dropping matched spans. -/

def subPctF : Nat → List Char → List Char
  | 0, _ => []
  | _ + 1, [] => []
  | fuel + 1, c :: cs =>
    match matchPctAt (c :: cs) with
    | some (_, rest) => subPctF fuel rest
    | none => c :: subPctF fuel cs

def subPct (s : List Char) : List Char := subPctF s.length s

/-- The `(?:,\d{3})*` part of the numeric pattern: consume comma-plus-three-
digit groups greedily; returns the consumed text and the remainder. -/

def commaGroups : List Char → List Char × List Char
  | ',' :: a :: b :: c :: rest =>
    if a.isDigit && b.isDigit && c.isDigit then
      let gr := commaGroups rest
      (',' :: a :: b :: c :: gr.1, gr.2)
    else ([], ',' :: a :: b :: c :: rest)
  | s => ([], s)

/-- Greedy match of the numeric pattern `(\d+(?:,\d{3})*(?:\.\d+)?)` at the
start of `s` (no trailing requirement, so it succeeds whenever a digit
starts `s`). -/

def matchNumAt (s : List Char) : Option (List Char × List Char) :=
  let d := s.takeWhile Char.isDigit
  if d.isEmpty then none
  else
    let cg := commaGroups (s.dropWhile Char.isDigit)
    let fs := fracPart cg.2
    some (d ++ cg.1 ++ fs.1, fs.2)

/-- `re.findall` of the numeric pattern (fuel as in `pctFindAllF`). -/

def numFindAllF : Nat → List Char → List (List Char)
  | 0, _ => []
  | _ + 1, [] => []
  | fuel + 1, c :: cs =>
    match matchNumAt (c :: cs) with
    | some (g, rest) => g :: numFindAllF fuel rest
    | none => numFindAllF fuel cs

def numFindAll (s : List Char) : List (List Char) := numFindAllF s.length s

/-- `re.sub(numeric_pattern, '', s)`. -/

def subNumF : Nat → List Char → List Char
  | 0, _ => []
  | _ + 1, [] => []
  | fuel + 1, c :: cs =>
    match matchNumAt (c :: cs) with
    | some (_, rest) => subNumF fuel rest
    | none => c :: subNumF fuel cs

def subNum (s : List Char) : List Char := subNumF s.length s

/-- Whether four consecutive digits follow after optional whitespace
(the `\s*\d{4}` tail of the timeline pattern). -/

def fourDigitsAfterSpaces (s : List Char) : Bool :=
  match s.dropWhile pySpace with
  | a :: b :: c :: d :: _ => a.isDigit && b.isDigit && c.isDigit && d.isDigit
  | _ => false

/-- The `Q[1-4]\s*\d{4}` alternative of the timeline pattern, at the start
of `s`. -/

def tlQuarterAt (s : List Char) : Bool :=
  match s with
  | q :: c :: rest =>
    (q = 'Q') && (c = '1' || c = '2' || c = '3' || c = '4')
      && fourDigitsAfterSpaces rest
  | _ => false

/-- The `[A-Za-z]+\s*\d{4}` alternative: greedy letter run, then the tail. -/

def tlWordAt (s : List Char) : Bool :=
  !(s.takeWhile Char.isAlpha).isEmpty
    && fourDigitsAfterSpaces (s.dropWhile Char.isAlpha)

/-- Match of the timeline pattern `(Q[1-4]|[A-Za-z]+)\s*\d{4}` at the start of
`s`: first the `Q[1-4]` alternative, then the greedy letter run.  (Backtracking
inside `[A-Za-z]+` or `\s*` cannot help: a shorter run leaves a letter or a
space where `\s*\d{4}` would have to start.) -/

def tlMatchAt (s : List Char) : Bool := tlQuarterAt s || tlWordAt s

/-- `re.findall(timeline_pattern, item) != []`: a match exists at some
position. -/

def tlHasMatch (s : List Char) : Bool := s.tails.any tlMatchAt

/-- Python `str.strip()`. -/

def stripWs (s : List Char) : List Char :=
  ((s.dropWhile pySpace).reverse.dropWhile pySpace).reverse

/-- Python `str.rstrip(':')`. -/

def rstripColon (s : List Char) : List Char :=
  (s.reverse.dropWhile (fun c => c = ':')).reverse

/-- `re.sub(percentage_pattern, '', item).strip().rstrip(':')[:30]`. -/

def pctLabel (item : List Char) : List Char :=
  (rstripColon (stripWs (subPct item))).take 30

/-- `re.sub(numeric_pattern, '', item).strip().rstrip(':')[:30]`. -/

def numLabel (item : List Char) : List Char :=
  (rstripColon (stripWs (subNum item))).take 30

/-- Digit run to a natural number. -/

def digitsToNat (s : List Char) : ℕ :=
  s.foldl (fun n c => 10 * n + (c.toNat - 48)) 0

/-- Python `float(...)` on the matched number text (after `replace(',', '')`
for the numeric branch): the exact decimal value, as a rational. -/

def parseFloat (s : List Char) : ℚ :=
  let t := s.filter (fun c => !(c == ','))
  let ip := t.takeWhile Char.isDigit
  match t.dropWhile Char.isDigit with
  | '.' :: fp => (digitsToNat ip : ℚ) + (digitsToNat fp : ℚ) / (10 : ℚ) ^ fp.length
  | _ => (digitsToNat ip : ℚ)

/-- The dict built by `detect_data_pattern` (render_pptx.py 331-338);
`data` holds the extracted values, `labels` the per-value labels. -/

structure DataPattern where
  chart_type : Option String
  data : List ℚ
  labels : List (List Char)
  has_percentages : Bool
  has_timeline : Bool
deriving DecidableEq, Repr

def initDP : DataPattern :=
  { chart_type := none, data := [], labels := [],
    has_percentages := false, has_timeline := false }

/-- One iteration of the `for item in content_items` loop of
`detect_data_pattern` (render_pptx.py 343-371): percentages first, then the
timeline flag, then — only when no percentage matched — the general numeric
extraction (the `float` conversion of a matched numeric string cannot raise,
so the `except ValueError: continue` arm is dead). -/

def itemStep (acc : DataPattern) (item : List Char) : DataPattern :=
  let ps := pctFindAll item
  let acc1 :=
    if ps.isEmpty then acc
    else { acc with
           has_percentages := true,
           data := acc.data ++ ps.map parseFloat,
           labels := acc.labels ++ ps.map (fun _ => pctLabel item) }
  let acc2 := if tlHasMatch item then { acc1 with has_timeline := true } else acc1
  if ps.isEmpty then
    let ns := numFindAll item
    { acc2 with
      data := acc2.data ++ ns.map parseFloat,
      labels := acc2.labels ++ ns.map (fun _ => numLabel item) }
  else acc2

/-- `DynamicChartGenerator.detect_data_pattern` (render_pptx.py 329-378). -/

def detect_data_pattern (items : List (List Char)) : DataPattern :=
  let p := items.foldl itemStep initDP
  if p.has_percentages && 2 ≤ p.data.length then { p with chart_type := some "pie" }
  else if p.has_timeline && 2 ≤ p.data.length then { p with chart_type := some "line" }
  else if 2 ≤ p.data.length then { p with chart_type := some "bar" }
  else p

/-! ## Reference definitions written from the spec's words -/

/-- Reference predicate from the spec's words for C4: a valid 7-character
`#RRGGBB` string — a `'#'` followed by exactly six hexadecimal digits. -/

def spec_hex_color (v : String) : Bool :=
  match v.toList with
  | '#' :: rest =>
    rest.length == 6
      && rest.all (fun c => c.isDigit || ('a' ≤ c && c ≤ 'f') || ('A' ≤ c && c ≤ 'F'))
  | _ => false

/-- English month names (full and the usual three-letter abbreviations), for
the spec's words "a month name" in C5. -/

def monthNames : List String :=
  ["January", "February", "March", "April", "May", "June", "July",
   "August", "September", "October", "November", "December",
   "Jan", "Feb", "Mar", "Apr", "Jun", "Jul", "Aug", "Sep", "Oct", "Nov", "Dec"]

/-- Reference predicate from the spec's words for C5: some string contains a
quarter token (Q1–Q4) or a month name followed (after optional whitespace) by
a 4-digit year. -/

def spec_timeline_signal (items : List (List Char)) : Bool :=
  items.any (fun s =>
    containsAnyS s ["Q1", "Q2", "Q3", "Q4"]
    || s.tails.any (fun t =>
         monthNames.any (fun m =>
           m.toList.isPrefixOf t
             && fourDigitsAfterSpaces (t.drop m.toList.length))))

/-- Declarative reading of the timeline regex, used to state the amended C5:
the string splits as `p ++ q ++ r ++ d ++ post` where `q` is `Q1`–`Q4` or a
non-empty ASCII-letter run, `r` is whitespace, and `d` is four digits. -/

def timelineToken (s : List Char) : Prop :=
  ∃ p q r d post, s = p ++ q ++ r ++ d ++ post
    ∧ ((∃ c, q = ['Q', c] ∧ (c = '1' ∨ c = '2' ∨ c = '3' ∨ c = '4'))
       ∨ (q ≠ [] ∧ ∀ x ∈ q, x.isAlpha = true))
    ∧ (∀ x ∈ r, pySpace x = true)
    ∧ d.length = 4 ∧ (∀ x ∈ d, x.isDigit = true)

/-- The values contributed by one item: its percentage matches, or — when
there is none — its general numeric matches.  (No contribution from the
timeline scan.) -/

def itemValues (it : List Char) : List ℚ :=
  if (pctFindAll it).isEmpty then (numFindAll it).map parseFloat
  else (pctFindAll it).map parseFloat

/-! ## Claim theorems -/

/-! ## Helper lemmas for the timeline characterization (C5) -/

/-! ## Lemmas and claim theorems -/

example : detect_layout (toL "Update") [toL "Growth: 5%", toL "Stable outlook"] = "metrics" := by decide

example : detect_layout (toL "Team") [toL "Phase one", toL "Item two", toL "Item three", toL "Item four"] = "timeline" := by decide

example : detect_layout (toL "Team") [toL "Alpha", toL "Bravo", toL "Charlie", toL "Delta"] = "grid" := by decide

/-- `Rat.floor` is the floor of the ordered-field structure. -/
theorem ratFloor_eq (x : ℚ) : x.floor = ⌊x⌋ := by
  rw [Rat.floor_def, Rat.floor_def']

/-- `roundQ` agrees with Mathlib's `round`. -/
theorem roundQ_eq_round (x : ℚ) : roundQ x = round x := by
  rw [roundQ, ratFloor_eq, round_eq]

example : (calculate_optimal_font_sizes (1/10) 50 "text_heavy").title = 24 := by
  norm_num [calculate_optimal_font_sizes, pyTrunc, Rat.floor]

example : (spec_font_sizes (1/10) 50 "text_heavy").title = 25 := by
  norm_num [spec_font_sizes, roundQ, Rat.floor]

example : ensure_contrast_ratio (toL "#f7fafc") (toL "#000000") (9/2) = "#1F1F1F" := by decide

example : ensure_contrast_ratio (toL "#1A202C") (toL "#000000") (9/2) = "#FFFFFF" := by decide

example : get_smart_theme (toL "healthcare") [] [] [] = "healthcare" := by decide

example : get_smart_theme [] [] [] [] = "corporate" := by decide

example : get_smart_theme [] [] [] (toL "executive team") = "corporate" := by decide

example :
    dictGet (get_design_theme initial_catalog (some (some (toL "corporate"))) []
      [("primary", "#123456")]).1 "primary" = some "#123456" := by decide

example :
    dictGet (get_design_theme
      (get_design_theme initial_catalog (some (some (toL "corporate"))) []
        [("primary", "#123456")]).2
      (some (some (toL "corporate"))) [] []).1 "primary" = some "#123456" := by decide

theorem fracPart_rest_le (s1 : List Char) :
    (fracPart s1).2.length ≤ s1.length := by
  unfold fracPart
  dsimp only
  split
  next t =>
    split
    · simp
    · have : (t.dropWhile Char.isDigit).length ≤ t.length :=
        (List.dropWhile_sublist _).length_le
      simp
      omega
  next => simp

theorem matchPctAt_rest_lt {s g r : List Char}
    (h : matchPctAt s = some (g, r)) : r.length < s.length := by
  unfold matchPctAt at h
  dsimp only at h
  split at h
  · exact absurd h (by simp)
  · have h1 : (s.dropWhile Char.isDigit).length ≤ s.length :=
      (List.dropWhile_sublist _).length_le
    have h2 : (fracPart (s.dropWhile Char.isDigit)).2.length ≤
        (s.dropWhile Char.isDigit).length := fracPart_rest_le _
    have h3 : ((fracPart (s.dropWhile Char.isDigit)).2.dropWhile pySpace).length ≤
        (fracPart (s.dropWhile Char.isDigit)).2.length :=
      (List.dropWhile_sublist _).length_le
    split at h
    next rest heq =>
      cases h
      have h4 := congrArg List.length heq
      simp only [List.length_cons] at h4
      omega
    next => exact absurd h (by simp)

theorem pctFindAllF_fuel {f1 f2 : Nat} {s : List Char}
    (h1 : s.length ≤ f1) (h2 : s.length ≤ f2) :
    pctFindAllF f1 s = pctFindAllF f2 s := by
  induction f1 using Nat.strong_induction_on generalizing s f2 with
  | _ f1 ih =>
    match f1, s, f2 with
    | 0, s, f2 =>
      have : s = [] := List.length_eq_zero.mp (Nat.le_zero.mp h1)
      subst this
      cases f2 <;> rfl
    | _ + 1, [], f2 => cases f2 <;> rfl
    | fuel + 1, c :: cs, 0 => exact absurd h2 (by simp)
    | fuel + 1, c :: cs, f2 + 1 =>
      rw [pctFindAllF, pctFindAllF]
      split
      next g rest hm =>
        have hr := matchPctAt_rest_lt hm
        simp only [List.length_cons] at h1 h2 hr
        have hfx : pctFindAllF fuel rest = pctFindAllF f2 rest :=
          ih fuel (Nat.lt_succ_self _) (by omega) (by omega)
        rw [hfx]
      next =>
        simp only [List.length_cons] at h1 h2
        exact ih fuel (Nat.lt_succ_self _) (by omega) (by omega)

theorem subPctF_fuel {f1 f2 : Nat} {s : List Char}
    (h1 : s.length ≤ f1) (h2 : s.length ≤ f2) :
    subPctF f1 s = subPctF f2 s := by
  induction f1 using Nat.strong_induction_on generalizing s f2 with
  | _ f1 ih =>
    match f1, s, f2 with
    | 0, s, f2 =>
      have : s = [] := List.length_eq_zero.mp (Nat.le_zero.mp h1)
      subst this
      cases f2 <;> rfl
    | _ + 1, [], f2 => cases f2 <;> rfl
    | fuel + 1, c :: cs, 0 => exact absurd h2 (by simp)
    | fuel + 1, c :: cs, f2 + 1 =>
      rw [subPctF, subPctF]
      split
      next g rest hm =>
        have hr := matchPctAt_rest_lt hm
        simp only [List.length_cons] at h1 h2 hr
        have hfx : subPctF fuel rest = subPctF f2 rest :=
          ih fuel (Nat.lt_succ_self _) (by omega) (by omega)
        rw [hfx]
      next =>
        simp only [List.length_cons] at h1 h2
        have hfy : subPctF fuel cs = subPctF f2 cs :=
          ih fuel (Nat.lt_succ_self _) (by omega) (by omega)
        rw [hfy]

theorem commaGroups_rest_le (s : List Char) :
    (commaGroups s).2.length ≤ s.length := by
  induction s using commaGroups.induct with
  | case1 a b c rest h ih =>
    rw [commaGroups]
    simp only [h, if_true]
    simp only [List.length_cons]
    omega
  | case2 a b c rest h =>
    rw [commaGroups]
    simp [h]
  | case3 s h =>
    rw [commaGroups.eq_def]
    split
    next a b c rest => exact absurd rfl (h a b c rest)
    next => simp

theorem matchNumAt_rest_lt {s g r : List Char}
    (h : matchNumAt s = some (g, r)) : r.length < s.length := by
  unfold matchNumAt at h
  dsimp only at h
  split at h
  · exact absurd h (by simp)
  next hne =>
    have hs : (s.dropWhile Char.isDigit).length < s.length := by
      cases s with
      | nil => simp at hne
      | cons c cs =>
        by_cases hc : Char.isDigit c
        · rw [List.dropWhile_cons_of_pos hc]
          have : (cs.dropWhile Char.isDigit).length ≤ cs.length :=
            (List.dropWhile_sublist _).length_le
          simp
          omega
        · rw [List.takeWhile_cons_of_neg hc] at hne
          simp at hne
    have h1 : (commaGroups (s.dropWhile Char.isDigit)).2.length ≤
        (s.dropWhile Char.isDigit).length := commaGroups_rest_le _
    have h2 : (fracPart (commaGroups (s.dropWhile Char.isDigit)).2).2.length ≤
        (commaGroups (s.dropWhile Char.isDigit)).2.length := fracPart_rest_le _
    cases h
    omega

theorem numFindAllF_fuel {f1 f2 : Nat} {s : List Char}
    (h1 : s.length ≤ f1) (h2 : s.length ≤ f2) :
    numFindAllF f1 s = numFindAllF f2 s := by
  induction f1 using Nat.strong_induction_on generalizing s f2 with
  | _ f1 ih =>
    match f1, s, f2 with
    | 0, s, f2 =>
      have : s = [] := List.length_eq_zero.mp (Nat.le_zero.mp h1)
      subst this
      cases f2 <;> rfl
    | _ + 1, [], f2 => cases f2 <;> rfl
    | fuel + 1, c :: cs, 0 => exact absurd h2 (by simp)
    | fuel + 1, c :: cs, f2 + 1 =>
      rw [numFindAllF, numFindAllF]
      split
      next g rest hm =>
        have hr := matchNumAt_rest_lt hm
        simp only [List.length_cons] at h1 h2 hr
        have hfx : numFindAllF fuel rest = numFindAllF f2 rest :=
          ih fuel (Nat.lt_succ_self _) (by omega) (by omega)
        rw [hfx]
      next =>
        simp only [List.length_cons] at h1 h2
        exact ih fuel (Nat.lt_succ_self _) (by omega) (by omega)

theorem subNumF_fuel {f1 f2 : Nat} {s : List Char}
    (h1 : s.length ≤ f1) (h2 : s.length ≤ f2) :
    subNumF f1 s = subNumF f2 s := by
  induction f1 using Nat.strong_induction_on generalizing s f2 with
  | _ f1 ih =>
    match f1, s, f2 with
    | 0, s, f2 =>
      have : s = [] := List.length_eq_zero.mp (Nat.le_zero.mp h1)
      subst this
      cases f2 <;> rfl
    | _ + 1, [], f2 => cases f2 <;> rfl
    | fuel + 1, c :: cs, 0 => exact absurd h2 (by simp)
    | fuel + 1, c :: cs, f2 + 1 =>
      rw [subNumF, subNumF]
      split
      next g rest hm =>
        have hr := matchNumAt_rest_lt hm
        simp only [List.length_cons] at h1 h2 hr
        have hfx : subNumF fuel rest = subNumF f2 rest :=
          ih fuel (Nat.lt_succ_self _) (by omega) (by omega)
        rw [hfx]
      next =>
        simp only [List.length_cons] at h1 h2
        have hfy : subNumF fuel cs = subNumF f2 cs :=
          ih fuel (Nat.lt_succ_self _) (by omega) (by omega)
        rw [hfy]

example : pctFindAll (toL "Completion: 85%") = [toL "85"] := by decide

example : numFindAll (toL "Revenue 1,234.5 up 20") = [toL "1,234.5", toL "20"] := by decide

example : subPct (toL "Completion: 85%") = toL "Completion: " := by decide

example : parseFloat (toL "85") = 85 := by decide

example : parseFloat (toL "1,234.5") = 12345 / 10 := by decide

example : (detect_data_pattern [toL "Completion: 85%"]).chart_type = none := by decide

example : (detect_data_pattern [toL "Completion: 85%"]).has_percentages = true := by decide

example : (detect_data_pattern [toL "Completion: 85%"]).data = [85] := by decide

example : (detect_data_pattern [toL "Revenue 2024"]).has_timeline = true := by decide

example : tlHasMatch (toL "Q1 2024") = true := by decide

example : tlHasMatch (toL "Q1 report") = false := by decide

/-- C1: the claim says spec color overrides are applied to a copy and the
catalog entry stays unchanged.  The code writes through the returned catalog
singleton: after one resolution of the corporate theme with
`spec_colors = {primary: #123456}`, a second, override-free resolution of the
same theme returns the overridden palette, not the catalog value `#2E75B6`.
This contradicts the claim (evidence for the code bug). -/
theorem C1_catalog_mutation :
    dictGet (get_design_theme initial_catalog (some (some (toL "corporate"))) []
        [("primary", "#123456")]).1 "primary" = some "#123456"
    ∧ dictGet ((dictGet initial_catalog "corporate").getD []) "primary"
        = some "#2E75B6"
    ∧ dictGet (get_design_theme
          (get_design_theme initial_catalog (some (some (toL "corporate"))) []
            [("primary", "#123456")]).2
          (some (some (toL "corporate"))) [] []).1 "primary" = some "#123456"
    ∧ (get_design_theme
          (get_design_theme initial_catalog (some (some (toL "corporate"))) []
            [("primary", "#123456")]).2
          (some (some (toL "corporate"))) [] []).1
        ≠ (get_design_theme initial_catalog (some (some (toL "corporate"))) [] []).1 := by
  refine ⟨by decide, by decide, by decide, by decide⟩

/-- C3 counterexample: at `visual_weight = 0.1`, `word_count = 50`,
`content_type = "text_heavy"` the code computes `int(24.96) = 24` while the
spec's round-to-nearest reference gives `25`, so the two differ. -/
theorem C3_counterexample :
    calculate_optimal_font_sizes (1/10) 50 "text_heavy"
      ≠ spec_font_sizes (1/10) 50 "text_heavy" := by decide

/-- C3 (amended): `calculate_optimal_font_sizes` equals the spec's reference
pipeline with Python `int` truncation toward zero in place of rounding to
nearest; and the outputs always satisfy the claimed clamps
(title in [24,48], body in [12,24], caption in [10,14]). -/
theorem C3_font_sizes (visual_weight : ℚ) (word_count : ℕ) (content_type : String) :
    calculate_optimal_font_sizes visual_weight word_count content_type
      = spec_font_sizes_trunc visual_weight word_count content_type
    ∧ 24 ≤ (calculate_optimal_font_sizes visual_weight word_count content_type).title
    ∧ (calculate_optimal_font_sizes visual_weight word_count content_type).title ≤ 48
    ∧ 12 ≤ (calculate_optimal_font_sizes visual_weight word_count content_type).body
    ∧ (calculate_optimal_font_sizes visual_weight word_count content_type).body ≤ 24
    ∧ 10 ≤ (calculate_optimal_font_sizes visual_weight word_count content_type).caption
    ∧ (calculate_optimal_font_sizes visual_weight word_count content_type).caption ≤ 14 := by
  refine ⟨rfl, ?_, ?_, ?_, ?_, ?_, ?_⟩ <;>
    simp only [calculate_optimal_font_sizes] <;>
    first
      | exact le_max_left _ _
      | exact max_le (by norm_num) (min_le_left _ _)

/-- C4 counterexample: the value `#GGGGGG` is not a `#RRGGBB` hex string, yet
the override loop applies it over the palette (the guard checks only the
leading `#` and the length). -/
theorem C4_counterexample :
    spec_hex_color "#GGGGGG" = false
    ∧ dictGet (get_design_theme initial_catalog (some (some (toL "corporate"))) []
        [("primary", "#GGGGGG")]).1 "primary" = some "#GGGGGG" := by
  refine ⟨by decide, by decide⟩

/-- C4 (amended): a spec color override is applied over the resolved palette
exactly when its value starts with `'#'` and has length 7; hexadecimal digits
are not validated.  Any other value leaves the palette as in an override-free
resolution. -/
theorem C4_override_guard (catalog : List (String × List (String × String)))
    (ai : Option (Option (List Char))) (fc : List Char) (k v : String) :
    spec_color_accepted v = ((toL "#").isPrefixOf v.toList && v.toList.length == 7)
    ∧ (get_design_theme catalog ai fc [(k, v)]).1
        = (if spec_color_accepted v then
             dictSet ((get_design_theme catalog ai fc []).1) k v
           else (get_design_theme catalog ai fc []).1) := by
  refine ⟨rfl, ?_⟩
  unfold get_design_theme apply_spec_color
  dsimp only
  split <;> simp [List.foldl, apply_spec_color, *]

/-- C8: for the single item `"Completion: 85%"` the detector reports
`has_percentages`, extracts the single value 85.0, and leaves `chart_type`
as none (no chart from a single point). -/
theorem C8_single_percentage :
    (detect_data_pattern [toL "Completion: 85%"]).chart_type = none
    ∧ (detect_data_pattern [toL "Completion: 85%"]).has_percentages = true
    ∧ (detect_data_pattern [toL "Completion: 85%"]).data = [(85 : ℚ)]
    ∧ (detect_data_pattern [toL "Completion: 85%"]).labels = [toL "Completion"] := by
  refine ⟨by decide, by decide, by decide, by decide⟩

/-- C10: `ensure_contrast_ratio` ignores `text_color` and `min_ratio`, and
returns the dark text `#1F1F1F` exactly when the uppercased background starts
with `#F` (the explicit `== '#FFFFFF'` disjunct in the code is subsumed),
else `#FFFFFF`. -/
theorem C10_contrast (bg t1 t2 : List Char) (r1 r2 : ℚ) :
    ensure_contrast_ratio bg t1 r1 = ensure_contrast_ratio bg t2 r2
    ∧ (ensure_contrast_ratio bg t1 r1 = "#1F1F1F"
        ↔ (toL "#F").isPrefixOf (upperL bg) = true)
    ∧ (ensure_contrast_ratio bg t1 r1 = "#1F1F1F"
       ∨ ensure_contrast_ratio bg t1 r1 = "#FFFFFF") := by
  refine ⟨rfl, ?_, ?_⟩
  · unfold ensure_contrast_ratio
    by_cases hp : (toL "#F").isPrefixOf (upperL bg) = true
    · simp [hp]
    · have hq : ¬ upperL bg = toL "#FFFFFF" := by
        intro he
        rw [he] at hp
        exact hp (by decide)
      simp [hp, hq]
  · unfold ensure_contrast_ratio
    split
    · exact Or.inl rfl
    · exact Or.inr rfl

/-- C2 counterexample: title "Update" has no metrics keyword and only one of
the two items contains a percent sign, yet the detector returns "metrics"
(the code requires only `any('%' in item)` together with at least two items,
not two percent-bearing items).  All earlier rules are shown not to fire, so
the input is within the claim's scope. -/
theorem C2_counterexample :
    detect_layout (toL "Update") [toL "Growth: 5%", toL "Stable outlook"] = "metrics"
    ∧ title_metrics (lowerL (toL "Update")) = false
    ∧ count_pct_items [toL "Growth: 5%", toL "Stable outlook"] = 1
    ∧ quote_cond [toL "Growth: 5%", toL "Stable outlook"] = false
    ∧ title_timeline (lowerL (toL "Update")) = false
    ∧ content_timeline (lowerL (joinSpace [toL "Growth: 5%", toL "Stable outlook"])) = false
    ∧ title_hierarchy (lowerL (toL "Update")) = false
    ∧ title_comparison (lowerL (toL "Update")) = false
    ∧ content_comparison (lowerL (joinSpace [toL "Growth: 5%", toL "Stable outlook"])) = false := by
  decide

/-- C2 (amended): under the claim's hypotheses (non-empty items, not a quote,
no timeline/hierarchy/comparison signal), the detector returns "metrics" iff
the title contains one of metrics/kpi/results/performance, or at least one
item contains a percent sign and there are at least two items. -/
theorem C2_metrics_rule (title : List Char) (items : List (List Char))
    (h0 : items ≠ [])
    (h1 : quote_cond items = false)
    (h2 : title_timeline (lowerL title) = false)
    (h3 : content_timeline (lowerL (joinSpace items)) = false)
    (h4 : title_hierarchy (lowerL title) = false)
    (h5 : title_comparison (lowerL title) = false)
    (h6 : content_comparison (lowerL (joinSpace items)) = false) :
    detect_layout title items = "metrics"
      ↔ (title_metrics (lowerL title) = true
         ∨ (has_pct items = true ∧ 2 ≤ items.length)) := by
  have h0' : items.isEmpty = false := by
    cases items
    · exact absurd rfl h0
    · rfl
  unfold detect_layout
  simp only [h0', h1, h2, h3, h4, h5, h6, Bool.false_eq_true, if_false]
  by_cases hm : title_metrics (lowerL title) = true
  · simp [hm]
  · simp only [hm, Bool.false_eq_true, if_false]
    by_cases hp : (has_pct items && decide (2 ≤ items.length)) = true
    · rw [Bool.and_eq_true, decide_eq_true_eq] at hp
      simp [hp.1, hp.2, hm]
    · have hpf : (has_pct items && decide (2 ≤ items.length)) = false := by
        revert hp
        cases has_pct items && decide (2 ≤ items.length) <;> simp
      simp only [hpf, Bool.false_eq_true, if_false]
      constructor
      · intro he
        exfalso
        revert he
        split
        next => intro he; exact absurd he (by decide)
        next =>
          split
          next => intro he; exact absurd he (by decide)
          next =>
            split
            next => intro he; exact absurd he (by decide)
            next => intro he; exact absurd he (by decide)
      · intro hor
        rcases hor with hor | hor
        · exact hor.elim
        · rcases hor with ⟨ha, hb⟩
          rw [ha] at hpf
          simp [hb] at hpf

/-- Closed witness instantiating `C2_metrics_rule` at the counterexample
input and discharging its hypotheses. -/
theorem C2_metrics_rule_witness :
    detect_layout (toL "Update") [toL "Growth: 5%", toL "Stable outlook"] = "metrics"
      ↔ (title_metrics (lowerL (toL "Update")) = true
         ∨ (has_pct [toL "Growth: 5%", toL "Stable outlook"] = true
            ∧ 2 ≤ ([toL "Growth: 5%", toL "Stable outlook"] : List (List Char)).length)) :=
  C2_metrics_rule (toL "Update") [toL "Growth: 5%", toL "Stable outlook"]
    (by decide) (by decide) (by decide) (by decide) (by decide) (by decide) (by decide)

/-- C6 counterexample: four items whose content contains "phase", with a title
free of every higher-precedence keyword, are laid out as "timeline", not
"grid" — the content-based timeline rule pre-empts the grid rule even though
the title is clean. -/
theorem C6_counterexample :
    detect_layout (toL "Team")
        [toL "Phase one", toL "Item two", toL "Item three", toL "Item four"]
      = "timeline"
    ∧ ([toL "Phase one", toL "Item two", toL "Item three", toL "Item four"] :
        List (List Char)).length = 4
    ∧ title_timeline (lowerL (toL "Team")) = false
    ∧ title_hierarchy (lowerL (toL "Team")) = false
    ∧ title_comparison (lowerL (toL "Team")) = false
    ∧ title_metrics (lowerL (toL "Team")) = false := by
  decide

/-- C6 (amended): an item list of 4–6 entries is laid out as "grid" provided
the title has none of the higher-precedence keywords *and* the items
themselves carry no timeline tokens (q1–q4, phase), no comparison phrases
(versus, compared to, current, proposed), no percent sign, and no pipe/tab
table delimiters. -/
theorem C6_grid_rule (title : List Char) (items : List (List Char))
    (h1 : 4 ≤ items.length) (h2 : items.length ≤ 6)
    (h3 : title_timeline (lowerL title) = false)
    (h4 : content_timeline (lowerL (joinSpace items)) = false)
    (h5 : title_hierarchy (lowerL title) = false)
    (h6 : title_comparison (lowerL title) = false)
    (h7 : content_comparison (lowerL (joinSpace items)) = false)
    (h8 : title_metrics (lowerL title) = false)
    (h9 : has_pct items = false)
    (h10 : table_cond items = false) :
    detect_layout title items = "grid" := by
  have h0' : items.isEmpty = false := by
    cases items
    · simp at h1
    · rfl
  have hq : quote_cond items = false := by
    match items, h1 with
    | a :: b :: t, _ => rfl
    | [a], h1 => simp at h1
    | [], h1 => simp at h1
  have hg : (decide (4 ≤ items.length) && decide (items.length ≤ 6)) = true := by
    simp [h1, h2]
  unfold detect_layout
  simp only [h0', hq, h3, h4, h5, h6, h7, h8, h9, h10, hg, Bool.false_eq_true,
    Bool.false_and, if_false, if_true]

/-- Closed witness instantiating `C6_grid_rule` at a concrete clean input. -/
theorem C6_grid_rule_witness :
    detect_layout (toL "Team") [toL "Alpha", toL "Bravo", toL "Charlie", toL "Delta"]
      = "grid" :=
  C6_grid_rule (toL "Team") [toL "Alpha", toL "Bravo", toL "Charlie", toL "Delta"]
    (by decide) (by decide) (by decide) (by decide) (by decide) (by decide)
    (by decide) (by decide) (by decide) (by decide)

/-- The per-item loop never touches `chart_type`. -/
theorem itemStep_chart_type (acc : DataPattern) (it : List Char) :
    (itemStep acc it).chart_type = acc.chart_type := by
  unfold itemStep
  dsimp only
  repeat' split
  all_goals rfl

theorem foldl_chart_type (items : List (List Char)) (acc : DataPattern) :
    (items.foldl itemStep acc).chart_type = acc.chart_type := by
  induction items generalizing acc with
  | nil => rfl
  | cons it t ih => rw [List.foldl_cons, ih, itemStep_chart_type]

/-- Each value appended by the loop comes with exactly one label. -/
theorem itemStep_len (acc : DataPattern) (it : List Char)
    (h : acc.data.length = acc.labels.length) :
    (itemStep acc it).data.length = (itemStep acc it).labels.length := by
  unfold itemStep
  dsimp only
  repeat' split
  all_goals simp [h]

theorem foldl_len (items : List (List Char)) (acc : DataPattern)
    (h : acc.data.length = acc.labels.length) :
    (items.foldl itemStep acc).data.length
      = (items.foldl itemStep acc).labels.length := by
  induction items generalizing acc with
  | nil => exact h
  | cons it t ih => exact ih _ (itemStep_len acc it h)

/-- C7: the result of `detect_data_pattern` always pairs values with labels
one-to-one, and the chart type obeys the claimed decision rules: pie only
with percentages and ≥2 values, line only with a timeline and ≥2 values, bar
exactly when neither holds but there are ≥2 values, and none exactly when
there are fewer than 2 values. -/
theorem C7_chart_invariants (items : List (List Char)) :
    (detect_data_pattern items).data.length = (detect_data_pattern items).labels.length
    ∧ ((detect_data_pattern items).chart_type = some "pie" →
        (detect_data_pattern items).has_percentages = true
        ∧ 2 ≤ (detect_data_pattern items).data.length)
    ∧ ((detect_data_pattern items).chart_type = some "line" →
        (detect_data_pattern items).has_timeline = true
        ∧ 2 ≤ (detect_data_pattern items).data.length)
    ∧ ((detect_data_pattern items).chart_type = some "bar" ↔
        (¬((detect_data_pattern items).has_percentages = true
            ∧ 2 ≤ (detect_data_pattern items).data.length)
         ∧ ¬((detect_data_pattern items).has_timeline = true
            ∧ 2 ≤ (detect_data_pattern items).data.length)
         ∧ 2 ≤ (detect_data_pattern items).data.length))
    ∧ ((detect_data_pattern items).chart_type = none
        ↔ (detect_data_pattern items).data.length < 2) := by
  have hlen := foldl_len items initDP rfl
  have hct := foldl_chart_type items initDP
  unfold detect_data_pattern
  dsimp only
  split
  next hc =>
    rw [Bool.and_eq_true, decide_eq_true_eq] at hc
    refine ⟨hlen, fun _ => hc, ?_, ?_, ?_⟩
    · intro h; exact absurd h (by simp)
    · constructor
      · intro h; exact absurd h (by simp)
      · rintro ⟨hn, -, -⟩; exact absurd hc hn
    · constructor
      · intro h; exact absurd h (by simp)
      · intro h; dsimp only at h; exact absurd hc.2 (by omega)
  next hc1f =>
    split
    next hc =>
      rw [Bool.and_eq_true, decide_eq_true_eq] at hc
      refine ⟨hlen, ?_, fun _ => hc, ?_, ?_⟩
      · intro h; exact absurd h (by simp)
      · constructor
        · intro h; exact absurd h (by simp)
        · rintro ⟨-, hn, -⟩; exact absurd hc hn
      · constructor
        · intro h; exact absurd h (by simp)
        · intro h; dsimp only at h; exact absurd hc.2 (by omega)
    next hc2f =>
      split
      next hc3 =>
        refine ⟨hlen, ?_, ?_, ?_, ?_⟩
        · intro h; exact absurd h (by simp)
        · intro h; exact absurd h (by simp)
        · constructor
          · intro _
            refine ⟨?_, ?_, hc3⟩
            · rintro ⟨hp', hl'⟩
              rw [hp'] at hc1f
              simp [hl'] at hc1f
            · rintro ⟨ht', hl'⟩
              rw [ht'] at hc2f
              simp [hl'] at hc2f
          · intro _; rfl
        · constructor
          · intro h; exact absurd h (by simp)
          · intro h; dsimp only at h; exact absurd hc3 (by omega)
      next hc3f =>
        have hc3f' : ¬ 2 ≤ (items.foldl itemStep initDP).data.length := hc3f
        refine ⟨hlen, ?_, ?_, ?_, ?_⟩
        · intro h; rw [hct] at h; exact absurd h (by decide)
        · intro h; rw [hct] at h; exact absurd h (by decide)
        · constructor
          · intro h; rw [hct] at h; exact absurd h (by decide)
          · rintro ⟨-, -, hn⟩; exact absurd hn hc3f'
        · constructor
          · intro _; omega
          · intro _; exact hct

/-- `bestKey` returns an element of a non-empty key list. -/
theorem bestKey_mem (f : String → ℚ) : ∀ l : List String, l ≠ [] → bestKey f l ∈ l
  | [k], _ => by simp [bestKey]
  | k :: k2 :: rest, _ => by
    simp only [bestKey]
    split
    · exact List.mem_cons_of_mem _ (bestKey_mem f (k2 :: rest) (by simp))
    · exact List.mem_cons_self _ _

/-- `bestKey` attains the maximum score. -/
theorem bestKey_max (f : String → ℚ) :
    ∀ l : List String, ∀ k ∈ l, f k ≤ f (bestKey f l)
  | [], k, hk => absurd hk (by simp)
  | [k'], k, hk => by
    simp only [List.mem_singleton] at hk
    subst hk
    simp [bestKey]
  | k' :: k2 :: rest, k, hk => by
    simp only [bestKey]
    have ih := bestKey_max f (k2 :: rest)
    rcases List.mem_cons.mp hk with rfl | hk2
    · split
      next hlt => exact le_of_lt hlt
      next => exact le_refl _
    · have hle := ih k hk2
      split
      next => exact hle
      next hnlt => exact le_trans hle (not_lt.mp hnlt)

/-- Among the keys attaining the maximum, `bestKey` is the first in list
order (Python's `max` keeps the current best on ties). -/
theorem bestKey_first (f : String → ℚ) :
    ∀ l : List String, ∀ k ∈ l, f k = f (bestKey f l) →
      l.indexOf (bestKey f l) ≤ l.indexOf k
  | [], k, hk => absurd hk (by simp)
  | [k'], k, hk => by
    simp only [List.mem_singleton] at hk
    subst hk
    simp [bestKey]
  | k' :: k2 :: rest, k, hk => by
    intro heq
    simp only [bestKey] at heq ⊢
    split at heq
    next hlt =>
      rw [if_pos hlt]
      have hbne : bestKey f (k2 :: rest) ≠ k' := by
        intro he
        rw [he] at hlt
        exact lt_irrefl _ hlt
      rcases List.mem_cons.mp hk with rfl | hk2
      · exact absurd heq (ne_of_lt hlt)
      · have hkne : k ≠ k' := by
          intro he
          subst he
          exact absurd heq (ne_of_lt hlt)
        have ih := bestKey_first f (k2 :: rest) k hk2 heq
        rw [List.indexOf_cons_ne _ (Ne.symm hbne), List.indexOf_cons_ne _ (Ne.symm hkne)]
        exact Nat.succ_le_succ ih
    next hnlt =>
      rw [if_neg hnlt]
      simp

theorem formalityBump_nonneg (fl : List Char) (k : String) :
    0 ≤ formalityBump fl k := by
  unfold formalityBump
  repeat' split
  all_goals norm_num

theorem audienceBump_nonneg (al : List Char) (k : String) :
    0 ≤ audienceBump al k := by
  unfold audienceBump
  repeat' split
  all_goals norm_num

/-- All smart-theme scores are non-negative. -/
theorem smartScore_nonneg (industry style formality audience : List Char)
    (k : String) : 0 ≤ smartScore industry style formality audience k := by
  unfold smartScore
  refine add_nonneg (add_nonneg (add_nonneg ?_ ?_) ?_) ?_
  · split <;> norm_num
  · split <;> norm_num
  · split
    · exact formalityBump_nonneg _ _
    · norm_num
  · split
    · exact audienceBump_nonneg _ _
    · norm_num

/-- C9: `get_smart_theme` with industry "healthcare" and all other signals
empty returns the healthcare theme; with all signals empty it returns the
default corporate theme; and whenever the maximum score is attained and
non-zero, the returned theme attains the maximum and is the earliest such
theme in catalog iteration order (so of any two themes tied at a non-zero
maximum, the earlier wins). -/
theorem C9_smart_theme (industry style formality audience : List Char)
    (h : ∃ k, k ∈ themeOrder ∧ smartScore industry style formality audience k ≠ 0) :
    get_smart_theme (toL "healthcare") [] [] [] = "healthcare"
    ∧ get_smart_theme [] [] [] [] = "corporate"
    ∧ get_smart_theme industry style formality audience ∈ themeOrder
    ∧ (∀ k ∈ themeOrder,
        smartScore industry style formality audience k
          ≤ smartScore industry style formality audience
              (get_smart_theme industry style formality audience))
    ∧ (∀ k ∈ themeOrder,
        smartScore industry style formality audience k
            = smartScore industry style formality audience
                (get_smart_theme industry style formality audience)
          → themeOrder.indexOf (get_smart_theme industry style formality audience)
              ≤ themeOrder.indexOf k) := by
  obtain ⟨k0, hk0, hk0ne⟩ := h
  have hscore : smartScore industry style formality audience
      (bestKey (smartScore industry style formality audience) themeOrder) ≠ 0 := by
    have h1 := bestKey_max (smartScore industry style formality audience) themeOrder k0 hk0
    have h2 := smartScore_nonneg industry style formality audience k0
    intro he
    rw [he] at h1
    exact hk0ne (le_antisymm h1 h2)
  have hgt : get_smart_theme industry style formality audience
      = bestKey (smartScore industry style formality audience) themeOrder := by
    unfold get_smart_theme
    dsimp only
    rw [if_neg hscore]
  refine ⟨by decide, by decide, ?_, ?_, ?_⟩
  · rw [hgt]; exact bestKey_mem _ themeOrder (by decide)
  · rw [hgt]; intro k hk; exact bestKey_max _ themeOrder k hk
  · rw [hgt]; intro k hk heq; exact bestKey_first _ themeOrder k hk heq

/-- Closed witness instantiating `C9_smart_theme` with the healthcare
industry signal, whose score is non-zero. -/
theorem C9_smart_theme_witness :
    get_smart_theme (toL "healthcare") [] [] [] = "healthcare"
    ∧ get_smart_theme [] [] [] [] = "corporate" :=
  ⟨(C9_smart_theme (toL "healthcare") [] [] []
      ⟨"healthcare", by decide, by decide⟩).1,
   (C9_smart_theme (toL "healthcare") [] [] []
      ⟨"healthcare", by decide, by decide⟩).2.1⟩

theorem digit_not_alpha {c : Char} (h : c.isDigit = true) : c.isAlpha = false := by
  simp [Char.isDigit] at h
  obtain ⟨h1, h2⟩ := h
  have h2n : c.val.toNat ≤ 57 := h2
  simp [Char.isAlpha, Char.isUpper, Char.isLower]
  constructor
  · intro h3
    exact absurd (show 65 ≤ c.val.toNat from h3) (by omega)
  · intro h3
    exact absurd (show 97 ≤ c.val.toNat from h3) (by omega)

theorem digit_not_pySpace {c : Char} (h : c.isDigit = true) : pySpace c = false := by
  simp [Char.isDigit] at h
  obtain ⟨h1, h2⟩ := h
  have h1n : 48 ≤ c.val.toNat := h1
  have h2n : c.val.toNat ≤ 57 := h2
  simp [pySpace, Char.ext_iff]
  refine ⟨⟨⟨⟨⟨?_, ?_⟩, ?_⟩, ?_⟩, ?_⟩, ?_⟩ <;>
    · intro he
      have hv : c.val.toNat = _ := congrArg UInt32.toNat he
      simp [UInt32.size] at hv
      omega

theorem pySpace_not_alpha {c : Char} (h : pySpace c = true) : c.isAlpha = false := by
  simp [pySpace, Char.ext_iff] at h
  have hv : c.val.toNat ≤ 32 := by
    rcases h with ((((h | h) | h) | h) | h) | h <;>
      · have hx := congrArg UInt32.toNat h
        simp [UInt32.size] at hx
        omega
  simp [Char.isAlpha, Char.isUpper, Char.isLower]
  constructor
  · intro h3
    exact absurd (show 65 ≤ c.val.toNat from h3) (by omega)
  · intro h3
    exact absurd (show 97 ≤ c.val.toNat from h3) (by omega)

theorem takeWhile_append_all {p : Char → Bool} {q u : List Char}
    (h : ∀ x ∈ q, p x = true) : (q ++ u).takeWhile p = q ++ u.takeWhile p := by
  induction q with
  | nil => simp
  | cons a t ih =>
    have ha := h a (by simp)
    rw [List.cons_append, List.takeWhile_cons_of_pos ha,
      ih (fun x hx => h x (by simp [hx]))]
    simp

theorem dropWhile_append_all {p : Char → Bool} {q u : List Char}
    (h : ∀ x ∈ q, p x = true) : (q ++ u).dropWhile p = u.dropWhile p := by
  induction q with
  | nil => simp
  | cons a t ih =>
    have ha := h a (by simp)
    rw [List.cons_append, List.dropWhile_cons_of_pos ha]
    exact ih (fun x hx => h x (by simp [hx]))

theorem exists_four {d : List Char} (h : d.length = 4) :
    ∃ a b c e, d = [a, b, c, e] := by
  rcases d with _ | ⟨a, d⟩
  · simp at h
  rcases d with _ | ⟨b, d⟩
  · simp at h
  rcases d with _ | ⟨c, d⟩
  · simp at h
  rcases d with _ | ⟨e, d⟩
  · simp at h
  rcases d with _ | ⟨f, d⟩
  · exact ⟨a, b, c, e, rfl⟩
  · simp at h

theorem fourDigitsAfterSpaces_iff (u : List Char) :
    fourDigitsAfterSpaces u = true ↔
      ∃ r d post, u = r ++ d ++ post ∧ (∀ x ∈ r, pySpace x = true)
        ∧ d.length = 4 ∧ (∀ x ∈ d, x.isDigit = true) := by
  constructor
  · intro h
    unfold fourDigitsAfterSpaces at h
    split at h
    next a b c e post heq =>
      simp only [Bool.and_eq_true] at h
      refine ⟨u.takeWhile pySpace, [a, b, c, e], post, ?_, ?_, rfl, ?_⟩
      · conv_lhs => rw [← List.takeWhile_append_dropWhile pySpace u]
        rw [heq]
        simp
      · intro x hx
        exact List.mem_takeWhile_imp hx
      · intro x hx
        simp only [List.mem_cons, List.not_mem_nil, or_false] at hx
        rcases hx with rfl | rfl | rfl | rfl
        · exact h.1.1.1
        · exact h.1.1.2
        · exact h.1.2
        · exact h.2
    next => exact absurd h (by simp)
  · rintro ⟨r, d, post, rfl, hr, hd4, hdd⟩
    obtain ⟨a, b, c, e, rfl⟩ := exists_four hd4
    unfold fourDigitsAfterSpaces
    have hdrop : ((r ++ [a, b, c, e] ++ post).dropWhile pySpace)
        = a :: b :: c :: e :: post := by
      rw [List.append_assoc, dropWhile_append_all hr]
      have ha : pySpace a = false := digit_not_pySpace (hdd a (by simp))
      rw [show ([a, b, c, e] ++ post) = a :: (b :: c :: e :: post) by simp]
      rw [List.dropWhile_cons_of_neg (by simp [ha])]
    rw [hdrop]
    simp [hdd a (by simp), hdd b (by simp), hdd c (by simp), hdd e (by simp)]

theorem takedrop_alpha_stop {r d post : List Char}
    (hr : ∀ x ∈ r, pySpace x = true) (hd : d ≠ [])
    (hdd : ∀ x ∈ d, x.isDigit = true) :
    (r ++ (d ++ post)).takeWhile Char.isAlpha = []
    ∧ (r ++ (d ++ post)).dropWhile Char.isAlpha = r ++ (d ++ post) := by
  cases r with
  | nil =>
    cases d with
    | nil => exact absurd rfl hd
    | cons a t =>
      have ha : a.isAlpha = false := digit_not_alpha (hdd a (by simp))
      simp only [List.nil_append, List.cons_append]
      exact ⟨List.takeWhile_cons_of_neg (by simp [ha]),
        List.dropWhile_cons_of_neg (by simp [ha])⟩
  | cons x t =>
    have hx : x.isAlpha = false := pySpace_not_alpha (hr x (by simp))
    simp only [List.cons_append]
    exact ⟨List.takeWhile_cons_of_neg (by simp [hx]),
      List.dropWhile_cons_of_neg (by simp [hx])⟩

/-- The timeline scanner finds a match at the start of `t` exactly when `t`
starts with a quarter-or-word token followed by optional whitespace and four
digits.  Together with `List.mem_tails` this characterizes `tlHasMatch`. -/
theorem tlHasMatch_iff (s : List Char) :
    tlHasMatch s = true ↔ timelineToken s := by
  constructor
  · intro h
    unfold tlHasMatch at h
    rw [List.any_eq_true] at h
    obtain ⟨t, ht, hmt⟩ := h
    rw [List.mem_tails] at ht
    obtain ⟨p, hp⟩ := ht
    unfold tlMatchAt at hmt
    rw [Bool.or_eq_true] at hmt
    rcases hmt with hq | hw
    · unfold tlQuarterAt at hq
      rcases t with _ | ⟨q, _ | ⟨c, rest⟩⟩
      · simp at hq
      · simp at hq
      · simp only [Bool.and_eq_true] at hq
        obtain ⟨⟨hqQ, hc⟩, hfd⟩ := hq
        rw [decide_eq_true_eq] at hqQ
        subst hqQ
        obtain ⟨r, d, post, hrest, hr, hd4, hdd⟩ :=
          (fourDigitsAfterSpaces_iff rest).mp hfd
        refine ⟨p, ['Q', c], r, d, post, ?_, ?_, hr, hd4, hdd⟩
        · rw [← hp, hrest]
          simp
        · left
          refine ⟨c, rfl, ?_⟩
          have hc' := (by simpa using hc :
            ((c = '1' ∨ c = '2') ∨ c = '3') ∨ c = '4')
          tauto
    · unfold tlWordAt at hw
      rw [Bool.and_eq_true] at hw
      obtain ⟨hne, hfd⟩ := hw
      obtain ⟨r, d, post, hrest, hr, hd4, hdd⟩ :=
        (fourDigitsAfterSpaces_iff _).mp hfd
      refine ⟨p, t.takeWhile Char.isAlpha, r, d, post, ?_, ?_, hr, hd4, hdd⟩
      · rw [← hp]
        conv_lhs =>
          rw [← List.takeWhile_append_dropWhile Char.isAlpha t]
        rw [hrest]
        simp
      · right
        constructor
        · intro he
          rw [he] at hne
          simp at hne
        · intro x hx
          exact List.mem_takeWhile_imp hx
  · rintro ⟨p, q, r, d, post, hs, hq, hr, hd4, hdd⟩
    unfold tlHasMatch
    rw [List.any_eq_true]
    have hfd : fourDigitsAfterSpaces (r ++ (d ++ post)) = true := by
      apply (fourDigitsAfterSpaces_iff _).mpr
      exact ⟨r, d, post, by simp, hr, hd4, hdd⟩
    refine ⟨q ++ (r ++ (d ++ post)), ?_, ?_⟩
    · rw [List.mem_tails]
      refine ⟨p, ?_⟩
      rw [hs]
      simp
    · unfold tlMatchAt
      rw [Bool.or_eq_true]
      rcases hq with ⟨c, hqe, hc⟩ | ⟨hne, halpha⟩
      · subst hqe
        left
        unfold tlQuarterAt
        simp only [List.cons_append, List.nil_append]
        simp only [Bool.and_eq_true]
        refine ⟨⟨by simp, ?_⟩, hfd⟩
        rcases hc with rfl | rfl | rfl | rfl <;> simp
      · right
        unfold tlWordAt
        have hd' : d ≠ [] := by
          intro he
          rw [he] at hd4
          simp at hd4
        obtain ⟨htake, hdrop⟩ := takedrop_alpha_stop hr hd' hdd
        rw [Bool.and_eq_true]
        constructor
        · rw [takeWhile_append_all halpha, htake]
          simp [hne]
        · rw [dropWhile_append_all halpha, hdrop]
          exact hfd

/-- The per-item loop ors `has_timeline` with the item's timeline match and
nothing else. -/
theorem itemStep_hasTl (acc : DataPattern) (it : List Char) :
    (itemStep acc it).has_timeline = (acc.has_timeline || tlHasMatch it) := by
  unfold itemStep
  dsimp only
  by_cases hps : (pctFindAll it).isEmpty <;> by_cases htl : tlHasMatch it <;>
    simp [hps, htl]

theorem foldl_hasTl :
    ∀ (items : List (List Char)) (acc : DataPattern),
      (items.foldl itemStep acc).has_timeline
        = (acc.has_timeline || items.any tlHasMatch)
  | [], acc => by simp
  | it :: t, acc => by
    rw [List.foldl_cons, foldl_hasTl t, itemStep_hasTl]
    simp [Bool.or_assoc]

/-- The per-item loop appends exactly the percentage-or-numeric values; the
timeline check contributes nothing to `data`. -/
theorem itemStep_data (acc : DataPattern) (it : List Char) :
    (itemStep acc it).data = acc.data ++ itemValues it := by
  unfold itemStep itemValues
  dsimp only
  by_cases hps : (pctFindAll it).isEmpty <;> by_cases htl : tlHasMatch it <;>
    simp [hps, htl]

theorem foldl_data :
    ∀ (items : List (List Char)) (acc : DataPattern),
      (items.foldl itemStep acc).data
        = acc.data ++ (items.map itemValues).flatten
  | [], acc => by simp
  | it :: t, acc => by
    rw [List.foldl_cons, foldl_data t, itemStep_data]
    simp

theorem detect_hasTl (items : List (List Char)) :
    (detect_data_pattern items).has_timeline = items.any tlHasMatch := by
  have h := foldl_hasTl items initDP
  unfold detect_data_pattern
  dsimp only
  repeat' split
  all_goals simpa using h

theorem detect_data (items : List (List Char)) :
    (detect_data_pattern items).data = (items.map itemValues).flatten := by
  have h := foldl_data items initDP
  unfold detect_data_pattern
  dsimp only
  repeat' split
  all_goals simpa using h

/-- C5 counterexample: the item "Revenue 2024" contains no quarter token and
no month name, yet the code sets `has_timeline` (its regex accepts *any*
alphabetic word before a 4-digit year, not only month names). -/
theorem C5_counterexample :
    (detect_data_pattern [toL "Revenue 2024"]).has_timeline = true
    ∧ spec_timeline_signal [toL "Revenue 2024"] = false := by
  refine ⟨by decide, by decide⟩

/-- C5 (amended): `has_timeline` is set iff some string contains, at some
position, a quarter token `Q1`–`Q4` or a non-empty run of ASCII letters,
followed by optional whitespace and four consecutive digits; and the values
series is exactly the concatenation of the per-item percentage-or-numeric
extractions — the timeline scan appends nothing to it. -/
theorem C5_timeline (items : List (List Char)) :
    ((detect_data_pattern items).has_timeline = true ↔ ∃ s ∈ items, timelineToken s)
    ∧ (detect_data_pattern items).data = (items.map itemValues).flatten := by
  refine ⟨?_, detect_data items⟩
  rw [detect_hasTl, List.any_eq_true]
  constructor
  · rintro ⟨s, hs, hm⟩
    exact ⟨s, hs, (tlHasMatch_iff s).mp hm⟩
  · rintro ⟨s, hs, hm⟩
    exact ⟨s, hs, (tlHasMatch_iff s).mpr hm⟩
